import Mathlib

/-!
Verification of the AsistoVoice instruction-parsing and execution pipeline.

The definitions below are a shallow embedding of `src/procesamiento/parser.py`,
`src/procesamiento/modelo.py` and `src/procesamiento/ejecutor.py`.  Python
strings are modelled through their character lists (`String.data`); Python
`dict[str, Any]` parameter mappings are modelled as association lists with
Python insertion semantics (`dictInsert` overwrites an existing key in place,
otherwise appends).  The external `CategoriasService` store is modelled as a
record of CRUD operations returning `Except String α`: `Except.error e`
stands for a Python exception with message `e`.
-/

namespace AsistoVoice

/-! ## Character-level primitives (Python string methods) -/

/-- Python whitespace test used by `str.split()` / `str.strip()`
(ASCII whitespace; the inputs in play contain only these). -/
def pyIsSpace (c : Char) : Bool :=
  c == ' ' || c == '\t' || c == '\n' || c == '\r' || c == '\x0b' || c == '\x0c'

/-- Sentence-ending characters, `_FIN_FRASE = ".!?"` in `parser.py`. -/
def esFinFrase (c : Char) : Bool :=
  c == '.' || c == '!' || c == '?'

/-- Python `str.lstrip()` on a character list. -/
def lstripL (l : List Char) : List Char := l.dropWhile pyIsSpace

/-- Python `str.rstrip()` on a character list. -/
def rstripL (l : List Char) : List Char := (l.reverse.dropWhile pyIsSpace).reverse

/-- Python `str.strip()` on a character list. -/
def stripL (l : List Char) : List Char := rstripL (lstripL l)

/-- Python `str.rstrip(".!?")` on a character list. -/
def rstripFinL (l : List Char) : List Char := (l.reverse.dropWhile esFinFrase).reverse

/-- Accumulator-based worker for Python `str.split()` (split on whitespace
runs, dropping empty words).  `acc` holds the current word reversed. -/
def pySplitAux : List Char → List Char → List (List Char)
  | [], acc => if acc = [] then [] else [acc.reverse]
  | c :: cs, acc =>
    if pyIsSpace c then
      if acc = [] then pySplitAux cs [] else acc.reverse :: pySplitAux cs []
    else
      pySplitAux cs (c :: acc)

/-- Python `str.split()` on a character list. -/
def pySplitL (l : List Char) : List (List Char) := pySplitAux l []

/-- Python `" ".join(words)` on character lists. -/
def joinL : List (List Char) → List Char
  | [] => []
  | [w] => w
  | w :: w2 :: ws => w ++ ' ' :: joinL (w2 :: ws)

/-- Python `str.lower()` on one character (ASCII case mapping; the parser
only lowercases diacritic-free tokens). -/
def pyLowerChar (c : Char) : Char := c.toLower

/-! ## Diacritic stripping (`_quitar_tildes` in `parser.py`)

`unicodedata.normalize("NFD", s)` followed by removal of the combining marks
(category `Mn`) is modelled by `nfdChar` (the canonical decompositions of the
precomposed Latin characters that occur in Spanish text) together with `esMn`
(the combining-diacritical-marks block U+0300–U+036F, all of category Mn). -/

/-- Canonical NFD decompositions of the Spanish precomposed characters. -/
def nfdTabla : List (Char × List Char) :=
  [ ('á', ['a', '́']), ('é', ['e', '́']), ('í', ['i', '́']),
    ('ó', ['o', '́']), ('ú', ['u', '́']),
    ('Á', ['A', '́']), ('É', ['E', '́']), ('Í', ['I', '́']),
    ('Ó', ['O', '́']), ('Ú', ['U', '́']),
    ('ñ', ['n', '̃']), ('Ñ', ['N', '̃']),
    ('ü', ['u', '̈']), ('Ü', ['U', '̈']) ]

/-- NFD decomposition of one character (identity outside the table). -/
def nfdChar (c : Char) : List Char := (nfdTabla.lookup c).getD [c]

/-- Membership in the combining-diacritical-marks block (category Mn). -/
def esMn (c : Char) : Bool := 0x300 ≤ c.toNat && c.toNat ≤ 0x36F

/-- `_quitar_tildes`: NFD-decompose and drop the combining marks. -/
def quitarTildesL (l : List Char) : List Char :=
  ((l.map nfdChar).flatten).filter (fun c => !esMn c)

/-- A character left unchanged by diacritic stripping: it decomposes to
itself and is not a combining mark. -/
def charEstable (c : Char) : Bool := (nfdChar c == [c]) && !esMn c

/-! ## String-level wrappers -/

/-- Python `str.split()`. -/
def pySplit (s : String) : List String := (pySplitL s.data).map String.mk

/-- Python `str.strip()`. -/
def pyStrip (s : String) : String := String.mk (stripL s.data)

/-- Python `str.lower()`. -/
def pyLower (s : String) : String := String.mk (s.data.map pyLowerChar)

/-- Python `" ".join(ws)`. -/
def joinPalabras (ws : List String) : String := String.mk (joinL (ws.map String.data))

/-- Python `sep.join(xs)` (used by the executor with `", "` and `"\n"`). -/
def joinSep (sep : String) : List String → String
  | [] => ""
  | [x] => x
  | x :: y :: ys => x ++ sep ++ joinSep sep (y :: ys)

/-- The `_normalizar` function of `parser.py`: strip, collapse whitespace,
then strip trailing sentence terminators. -/
def normalizarL (l : List Char) : List Char :=
  let s := stripL l
  if s = [] then []
  else stripL (rstripFinL (stripL (joinL (pySplitL s))))

/-- `_normalizar` on strings. -/
def normalizar (s : String) : String := String.mk (normalizarL s.data)

/-- `_quitar_tildes` on strings. -/
def quitarTildes (s : String) : String := String.mk (quitarTildesL s.data)

/-- The full input normalization applied by `ParserInstrucciones.parsear`
before tokenization: `_quitar_tildes(_normalizar(texto))`. -/
def normalizarCompleto (s : String) : String := quitarTildes (normalizar s)

/-- Python `str.isdigit()` (ASCII digits; nonempty and all digits). -/
def pyEsDigito (s : String) : Bool := s ≠ "" && s.data.all Char.isDigit

/-- Python `int(s)` on a digit string. -/
def pyToNat (s : String) : Nat := s.data.foldl (fun n c => n * 10 + (c.toNat - 48)) 0

/-! ## Data model (`modelo.py`) -/

/-- The `Accion` enumeration. -/
inductive Accion where
  | crear
  | listar
  | actualizar
  | eliminar
deriving DecidableEq

/-- The `Entidad` enumeration. -/
inductive Entidad where
  | categorias
deriving DecidableEq

/-- Values stored in an instruction parameter mapping
(`dict[str, str | int | bool]`). -/
inductive Valor where
  | str (s : String)
  | int (n : Nat)
  | bool (b : Bool)
deriving DecidableEq

/-- Parameter mapping, modelled as an association list in insertion order. -/
abbrev Dict := List (String × Valor)

/-- Python `d[k] = v`: overwrite in place if present, else append. -/
def dictInsert (k : String) (v : Valor) : Dict → Dict
  | [] => [(k, v)]
  | (k0, v0) :: d => if k0 = k then (k, v) :: d else (k0, v0) :: dictInsert k v d

/-- Python `d.get(k)` / `d[k]`. -/
def dictGet (k : String) : Dict → Option Valor
  | [] => none
  | (k0, v) :: d => if k0 = k then some v else dictGet k d

/-- The `Instruccion` dataclass. -/
structure Instruccion where
  accion : Accion
  entidad : Entidad
  params : Dict
deriving DecidableEq

/-! ## Vocabularies (`parser.py` module constants) -/

def ACCIONES_CREAR : List String :=
  ["nueva", "nuevo", "crear", "insertar", "agregar", "anadir", "alta", "registrar"]

def ACCIONES_LISTAR : List String :=
  ["listado", "listar", "mostrar", "ver", "todas", "todos"]

def ACCIONES_ACTUALIZAR : List String :=
  ["editar", "actualizar", "modificar", "cambiar", "actualiza", "modifica"]

def ACCIONES_ELIMINAR : List String :=
  ["eliminar", "borrar", "quitar", "elimina", "borra"]

def ENTIDADES : List (String × Entidad) :=
  [("categoria", Entidad.categorias), ("categorias", Entidad.categorias)]

def CAMPOS_ACTUALIZABLES : List String := ["descripcion"]

def CAMPO_DESCRIPCION : String := "descripcion"

def STOPWORDS : List String :=
  ["la", "las", "los", "el", "de", "a", "en", "con", "todas", "todos"]

/-! ## Action detection and entity resolution -/

/-- `_primera_palabra_accion(palabras, low)`: match the first token against
the four action vocabularies, with the trailing `"ver todas"/"ver todos"`
two-token branch.  Returns the action and the index after its last word. -/
def primeraPalabraAccion (palabras low : List String) : Option Accion × Nat :=
  if palabras = [] then (none, 0)
  else
    let w := pyLower (low.headD "")
    if w ∈ ACCIONES_CREAR then (some Accion.crear, 1)
    else if w ∈ ACCIONES_LISTAR then (some Accion.listar, 1)
    else if w ∈ ACCIONES_ACTUALIZAR then (some Accion.actualizar, 1)
    else if w ∈ ACCIONES_ELIMINAR then (some Accion.eliminar, 1)
    else if 2 ≤ low.length ∧ w = "ver" ∧ pyLower (low.getD 1 "") ∈ (["todas", "todos"] : List String) then
      (some Accion.listar, 2)
    else (none, 0)

/-- Scan worker for `_buscar_entidad`: walk the lowered tokens from index `i`,
skipping stopwords; `desde` is returned unchanged on failure. -/
def buscarEntidadGo : List String → Nat → Nat → Option Entidad × Nat
  | [], _, desde => (none, desde)
  | w :: ws, i, desde =>
    if pyLower w ∈ STOPWORDS then buscarEntidadGo ws (i + 1) desde
    else
      match ENTIDADES.lookup (pyLower w) with
      | some e => (some e, i + 1)
      | none => (none, desde)

/-- `_buscar_entidad(palabras, low, desde)` (the `palabras` argument is
unused by the source as well). -/
def buscarEntidad (_palabras low : List String) (desde : Nat) : Option Entidad × Nat :=
  buscarEntidadGo (low.drop desde) desde desde

/-! ## Parameter extraction (`_extraer_params`)

The source walks `rest`/`rest_low` with one shared index; here the two lists
are zipped into tokens `(original, lowered)`.  The nested update loop
(lines 133–159 of `parser.py`) is written with an explicit fuel argument so
that the definition is structurally recursive; `fuel` is instantiated with
the token-list length, which the fuel lemmas below show is always enough. -/

/-- One token: the original-case word paired with its lowered copy. -/
abbrev Tok := String × String

/-- Value collection (lines 142–148): gather tokens until the next recognized
field name, dropping stopwords; returns the collected original-case words and
the unconsumed remainder. -/
def collectValor : List Tok → List String × List Tok
  | [] => ([], [])
  | t :: ts =>
    if pyLower t.2 ∈ CAMPOS_ACTUALIZABLES then ([], t :: ts)
    else
      let r := collectValor ts
      (if pyLower t.2 ∈ STOPWORDS then r.1 else t.1 :: r.1, r.2)

/-- Boolean coercion of a collected value string (lines 153–159). -/
def coerceValor (valorStr : String) : Valor :=
  let vLow := pyLower valorStr
  if vLow ∈ (["verdadero", "true", "1", "si", "sí", "yes"] : List String) then Valor.bool true
  else if vLow ∈ (["falso", "false", "0", "no"] : List String) then Valor.bool false
  else Valor.str valorStr

/-- The field/value scan of the update branch (lines 133–159), with fuel. -/
def scanCamposF : Nat → List Tok → Dict → Dict
  | 0, _, params => params
  | _ + 1, [], params => params
  | fuel + 1, t :: ts, params =>
    if pyLower t.2 ∈ STOPWORDS then scanCamposF fuel ts params
    else if pyLower t.2 ∉ CAMPOS_ACTUALIZABLES then scanCamposF fuel ts params
    else
      match collectValor ts with
      | (vs, resto) =>
        let valorStr := pyStrip (joinPalabras vs)
        if valorStr = "" then scanCamposF fuel resto params
        else scanCamposF fuel resto (dictInsert CAMPO_DESCRIPCION (coerceValor valorStr) params)

/-- The field/value scan of the update branch, fuelled by the list length. -/
def scanCampos (toks : List Tok) (params : Dict) : Dict :=
  scanCamposF toks.length toks params

/-- The list of nonempty collected value strings of the update scan, in scan
order.  This is the specification-side mirror of `scanCampos` used to state
which field/value pairs the scan recognizes; `scanCampos` stores coercions of
exactly these strings. -/
def valoresRecogidosF : Nat → List Tok → List String
  | 0, _ => []
  | _ + 1, [] => []
  | fuel + 1, t :: ts =>
    if pyLower t.2 ∈ STOPWORDS then valoresRecogidosF fuel ts
    else if pyLower t.2 ∉ CAMPOS_ACTUALIZABLES then valoresRecogidosF fuel ts
    else
      match collectValor ts with
      | (vs, resto) =>
        let valorStr := pyStrip (joinPalabras vs)
        if valorStr = "" then valoresRecogidosF fuel resto
        else valorStr :: valoresRecogidosF fuel resto

/-- Nonempty collected value strings of the update scan. -/
def valoresRecogidos (toks : List Tok) : List String :=
  valoresRecogidosF toks.length toks

/-- `_extraer_params(accion, entidad, palabras, low, desde)`. -/
def extraerParams (accion : Accion) (_entidad : Entidad)
    (palabras low : List String) (desde : Nat) : Dict :=
  let rest := palabras.drop desde
  let restLow := low.drop desde
  match accion with
  | Accion.crear =>
    let desc := pyStrip (joinPalabras (rest.filter (fun w => w ≠ "")))
    if desc ≠ "" then [("descripcion", Valor.str desc)] else []
  | Accion.listar => []
  | Accion.actualizar =>
    let toks := (rest.zip restLow).dropWhile (fun t => pyLower t.2 ∈ STOPWORDS)
    match toks with
    | [] => scanCampos [] []
    | t :: ts =>
      if pyEsDigito t.1 then scanCampos ts (dictInsert "id" (Valor.int (pyToNat t.1)) [])
      else scanCampos (t :: ts) []
  | Accion.eliminar =>
    let toks := (rest.zip restLow).dropWhile (fun t => pyLower t.2 ∈ STOPWORDS)
    match toks with
    | [] => []
    | t :: _ => if pyEsDigito t.1 then [("id", Valor.int (pyToNat t.1))] else []

/-! ## Top-level parse (`ParserInstrucciones.parsear`) -/

/-- `ParserInstrucciones.parsear`: normalize, strip diacritics, tokenize,
detect action and entity, extract parameters, and validate. -/
def parsear (texto : String) : Option Instruccion :=
  let t := normalizarCompleto texto
  if t = "" then none
  else
    let palabras := pySplit t
    let low := palabras.map pyLower
    match primeraPalabraAccion palabras low with
    | (none, _) => none
    | (some accion, finAccion) =>
      match buscarEntidad palabras low finAccion with
      | (none, _) => none
      | (some entidad, finEntidad) =>
        let params := extraerParams accion entidad palabras low finEntidad
        if accion = Accion.crear ∧ dictGet "descripcion" params = none then none
        else if accion = Accion.actualizar ∧
            (dictGet "id" params = none ∨ params.length ≤ 1) then none
        else if accion = Accion.eliminar ∧ dictGet "id" params = none then none
        else some ⟨accion, entidad, params⟩

/-! ## Executor (`ejecutor.py`)

The `CategoriasService` store is external to the core; it is modelled as a
record of CRUD functions whose `Except.error e` results stand for Python
exceptions with message `e`, caught by the `try/except` of
`_ejecutar_categorias`. -/

/-- The store behavior seen by the executor. -/
structure Almacen where
  create : String → Except String Nat
  listAll : Unit → Except String (List (Nat × String))
  update : Nat → Dict → Except String Nat
  delete : Nat → Except String Nat

/-- Python `str(v)` for a parameter value (used in f-string interpolation). -/
def pyStr : Valor → String
  | Valor.str s => s
  | Valor.int n => toString n
  | Valor.bool true => "True"
  | Valor.bool false => "False"

/-- Python `repr(v)` for a parameter value (`{v!r}` in the update summary;
strings are shown between single quotes, escaping elided). -/
def pyRepr : Valor → String
  | Valor.str s => String.mk ('\x27' :: s.data ++ ['\x27'])
  | Valor.int n => toString n
  | Valor.bool true => "True"
  | Valor.bool false => "False"

/-- Python `int(v)` applied to a parameter value; a non-numeric string raises. -/
def pyInt : Valor → Except String Nat
  | Valor.int n => Except.ok n
  | Valor.bool b => Except.ok (if b then 1 else 0)
  | Valor.str s =>
    if pyEsDigito s then Except.ok (pyToNat s)
    else Except.error ("invalid literal for int() with base 10: " ++ s)

/-- Python `p.get("descripcion", "").strip()`: a non-string value has no
`strip` attribute and raises. -/
def descripcionDe (p : Dict) : Except String String :=
  match dictGet "descripcion" p with
  | none => Except.ok (pyStrip "")
  | some (Valor.str s) => Except.ok (pyStrip s)
  | some (Valor.int _) => Except.error "int object has no strip method"
  | some (Valor.bool _) => Except.error "bool object has no strip method"

/-- Body of `_ejecutar_categorias` (the `try` block): `Except.error` is a
Python exception escaping to the `except` handler, `Except.ok` a returned
message.  The enumeration `Accion` is exhaustive, so the trailing
"Acción no implementada." return of the source is unreachable here. -/
def cuerpoCategorias (svc : Almacen) (inst : Instruccion) : Except String String :=
  let p := inst.params
  match inst.accion with
  | Accion.crear => do
    let desc ← descripcionDe p
    if desc = "" then Except.ok "Falta la descripción de la categoría."
    else do
      let id ← svc.create desc
      Except.ok ("Categoría creada: «" ++ desc ++ "» (id " ++ toString id ++ ").")
  | Accion.listar => do
    let filas ← svc.listAll ()
    if filas = [] then Except.ok "No hay categorías."
    else
      Except.ok ("Categorías:\n" ++
        joinSep "\n" (filas.map (fun r => "• " ++ toString r.1 ++ ": " ++ r.2)))
  | Accion.actualizar =>
    match dictGet "id" p with
    | none => Except.ok "Falta el id para actualizar."
    | some idv =>
      let campos := p.filter (fun kv => kv.1 ≠ "id")
      if campos = [] then Except.ok "Falta al menos un campo a actualizar."
      else do
        let n0 ← pyInt idv
        let n ← svc.update n0 campos
        if n = 0 then Except.ok ("No existe categoría con id " ++ pyStr idv ++ ".")
        else
          Except.ok ("Categoría " ++ pyStr idv ++ " actualizada: " ++
            joinSep ", " (campos.map (fun kv => kv.1 ++ "=" ++ pyRepr kv.2)) ++ ".")
  | Accion.eliminar =>
    match dictGet "id" p with
    | none => Except.ok "Falta el id de la categoría a eliminar."
    | some idv => do
      let n0 ← pyInt idv
      let n ← svc.delete n0
      if n = 0 then Except.ok ("No existe categoría con id " ++ pyStr idv ++ ".")
      else Except.ok ("Categoría " ++ pyStr idv ++ " eliminada.")

/-- `_ejecutar_categorias`: run the body, rendering an escaped exception as
an `"Error: <detail>"` message. -/
def ejecutarCategorias (svc : Almacen) (inst : Instruccion) : String :=
  match cuerpoCategorias svc inst with
  | Except.ok m => m
  | Except.error e => "Error: " ++ e

/-- `EjecutorInstrucciones.ejecutar`: dispatch on the entity (the
"Entidad no soportada." fallback of the source is unreachable for the
one-constructor `Entidad`). -/
def ejecutar (svc : Almacen) (inst : Instruccion) : String :=
  match inst.entidad with
  | Entidad.categorias => ejecutarCategorias svc inst

/-! ## Specification-side definitions used to state the claims -/

/-- Last element of a list of strings (mirrors Python overwrite semantics). -/
def ultimo? : List String → Option String
  | [] => none
  | [v] => some v
  | _ :: v :: vs => ultimo? (v :: vs)

/-- The per-action completeness rule of the specification (§3): Create
carries a nonempty description, List carries nothing, Update carries an
integer id plus at least one other key, Delete carries an integer id. -/
def reglaCompletitud (inst : Instruccion) : Prop :=
  match inst.accion with
  | Accion.crear => ∃ d, dictGet "descripcion" inst.params = some (Valor.str d) ∧ d ≠ ""
  | Accion.listar => inst.params = []
  | Accion.actualizar =>
      (∃ n, dictGet "id" inst.params = some (Valor.int n)) ∧
      ∃ kv ∈ inst.params, kv.1 ≠ "id"
  | Accion.eliminar => ∃ n, dictGet "id" inst.params = some (Valor.int n)

/-! ## Association-list lemmas -/

theorem dictGet_dictInsert_self (k : String) (v : Valor) (d : Dict) :
    dictGet k (dictInsert k v d) = some v := by
  induction d with
  | nil => simp [dictInsert, dictGet]
  | cons kv d ih =>
    obtain ⟨k0, v0⟩ := kv
    by_cases hk : k0 = k
    · subst hk; simp [dictInsert, dictGet]
    · simp [dictInsert, dictGet, hk, ih]

theorem dictGet_dictInsert_ne (k k0 : String) (v : Valor) (d : Dict) (hk : k ≠ k0) :
    dictGet k0 (dictInsert k v d) = dictGet k0 d := by
  induction d with
  | nil => simp [dictInsert, dictGet, hk]
  | cons kv d ih =>
    obtain ⟨k1, v1⟩ := kv
    by_cases hk1 : k1 = k
    · subst hk1; simp [dictInsert, dictGet, hk]
    · simp [dictInsert, dictGet, hk1, ih]

theorem mem_dictInsert (kv : String × Valor) (k : String) (v : Valor) :
    ∀ d : Dict, kv ∈ dictInsert k v d → kv = (k, v) ∨ kv ∈ d := by
  intro d
  induction d with
  | nil => intro h; simp [dictInsert] at h; simp [h]
  | cons kv0 d ih =>
    obtain ⟨k0, v0⟩ := kv0
    intro h
    by_cases hk : k0 = k
    · subst hk
      simp only [dictInsert, if_pos rfl] at h
      cases h with
      | head => exact Or.inl rfl
      | tail _ h => exact Or.inr (List.mem_cons_of_mem _ h)
    · simp only [dictInsert, if_neg hk] at h
      cases h with
      | head => exact Or.inr (List.mem_cons_self _ _)
      | tail _ h =>
        cases ih h with
        | inl h' => exact Or.inl h'
        | inr h' => exact Or.inr (List.mem_cons_of_mem _ h')

theorem keys_mem_dictInsert (k' k : String) (v : Valor) (d : Dict)
    (h : k' ∈ (dictInsert k v d).map Prod.fst) :
    k' = k ∨ k' ∈ d.map Prod.fst := by
  rcases List.mem_map.mp h with ⟨kv, hkv, hfst⟩
  rcases mem_dictInsert kv k v d hkv with h' | h'
  · left; rw [← hfst, h']
  · right; exact List.mem_map.mpr ⟨kv, h', hfst⟩

theorem nodup_keys_dictInsert (k : String) (v : Valor) (d : Dict)
    (h : (d.map Prod.fst).Nodup) : ((dictInsert k v d).map Prod.fst).Nodup := by
  induction d with
  | nil => simp [dictInsert]
  | cons kv0 d ih =>
    obtain ⟨k0, v0⟩ := kv0
    simp only [List.map_cons, List.nodup_cons] at h
    by_cases hk : k0 = k
    · subst hk
      simpa [dictInsert] using h
    · simp only [dictInsert, if_neg hk, List.map_cons, List.nodup_cons]
      refine ⟨fun hmem => ?_, ih h.2⟩
      rcases keys_mem_dictInsert k0 k v d hmem with h' | h'
      · exact hk h'
      · exact h.1 h'

theorem exists_key_ne (d : Dict) (hn : (d.map Prod.fst).Nodup) (hl : 2 ≤ d.length)
    (k0 : String) : ∃ kv ∈ d, kv.1 ≠ k0 := by
  match d, hn, hl with
  | a :: b :: rest, hn, _ =>
    have hab : a.1 ≠ b.1 := by
      simp only [List.map_cons, List.nodup_cons, List.mem_cons] at hn
      exact fun h => hn.1 (Or.inl h)
    by_cases ha : a.1 = k0
    · exact ⟨b, by simp, fun hb => hab (ha.trans hb.symm)⟩
    · exact ⟨a, by simp, ha⟩

/-! ## Update-scan lemmas -/

theorem dictGet_scanCamposF (k : String) (hk : k ≠ CAMPO_DESCRIPCION) :
    ∀ fuel toks params, dictGet k (scanCamposF fuel toks params) = dictGet k params := by
  intro fuel
  induction fuel with
  | zero => intro toks params; rfl
  | succ fuel ih =>
    intro toks params
    match toks with
    | [] => rfl
    | t :: ts =>
      rw [scanCamposF]
      split
      · exact ih ts params
      · split
        · exact ih ts params
        · split
          simp only []
          split
          · exact ih _ params
          · rw [ih]
            exact dictGet_dictInsert_ne _ _ _ _ (fun h => hk h.symm)

theorem dictGet_scanCampos (k : String) (hk : k ≠ CAMPO_DESCRIPCION)
    (toks : List Tok) (params : Dict) :
    dictGet k (scanCampos toks params) = dictGet k params :=
  dictGet_scanCamposF k hk _ toks params

theorem mem_scanCamposF :
    ∀ fuel toks params kv, kv ∈ scanCamposF fuel toks params →
      kv ∈ params ∨ (kv.1 = CAMPO_DESCRIPCION ∧ ∃ s, s ≠ "" ∧ kv.2 = coerceValor s) := by
  intro fuel
  induction fuel with
  | zero => intro toks params kv h; exact Or.inl h
  | succ fuel ih =>
    intro toks params kv h
    match toks with
    | [] => exact Or.inl h
    | t :: ts =>
      rw [scanCamposF] at h
      split at h
      · exact ih ts params kv h
      · split at h
        · exact ih ts params kv h
        · split at h
          simp only [] at h
          split at h
          · exact ih _ params kv h
          · rcases ih _ _ kv h with h' | h'
            · rcases mem_dictInsert kv _ _ params h' with h'' | h''
              · right
                refine ⟨by rw [h''], _, ‹_›, by rw [h'']⟩
              · exact Or.inl h''
            · exact Or.inr h'

theorem nodup_keys_scanCamposF :
    ∀ fuel toks params, (params.map Prod.fst).Nodup →
      ((scanCamposF fuel toks params).map Prod.fst).Nodup := by
  intro fuel
  induction fuel with
  | zero => intro toks params h; exact h
  | succ fuel ih =>
    intro toks params h
    match toks with
    | [] => exact h
    | t :: ts =>
      rw [scanCamposF]
      split
      · exact ih ts params h
      · split
        · exact ih ts params h
        · split
          simp only []
          split
          · exact ih _ params h
          · exact ih _ _ (nodup_keys_dictInsert _ _ params h)

theorem ultimo?_cons_of_ne_nil (v : String) (l : List String) (hl : l ≠ []) :
    ultimo? (v :: l) = ultimo? l := by
  match l, hl with
  | w :: ws, _ => rfl

theorem ultimo?_isSome (l : List String) (hl : l ≠ []) : ∃ v, ultimo? l = some v := by
  induction l with
  | nil => exact absurd rfl hl
  | cons v l ih =>
    match l with
    | [] => exact ⟨v, rfl⟩
    | w :: ws => exact ih (by simp)

theorem scanCamposF_ultimo :
    ∀ fuel toks params,
      (valoresRecogidosF fuel toks = [] → scanCamposF fuel toks params = params) ∧
      (∀ v, ultimo? (valoresRecogidosF fuel toks) = some v →
        dictGet CAMPO_DESCRIPCION (scanCamposF fuel toks params) = some (coerceValor v)) := by
  intro fuel
  induction fuel with
  | zero => intro toks params; exact ⟨fun _ => rfl, fun v hv => by simp [valoresRecogidosF, ultimo?] at hv⟩
  | succ fuel ih =>
    intro toks params
    match toks with
    | [] => exact ⟨fun _ => rfl, fun v hv => by simp [valoresRecogidosF, ultimo?] at hv⟩
    | t :: ts =>
      rw [scanCamposF, valoresRecogidosF]
      split
      · exact ih ts params
      · split
        · exact ih ts params
        · split
          rename_i vs resto heq
          simp only []
          split
          · exact ih _ params
          · constructor
            · intro hnil
              exact absurd hnil (by simp)
            · intro v hv
              by_cases hrest : valoresRecogidosF fuel resto = []
              · rw [hrest] at hv
                simp only [ultimo?, Option.some.injEq] at hv
                rw [(ih _ _).1 hrest, ← hv]
                exact dictGet_dictInsert_self _ _ _
              · rw [ultimo?_cons_of_ne_nil _ _ hrest] at hv
                exact (ih _ _).2 v hv

/-! ## Claim C2: the "ver todas/todos" two-token rule -/

/-- Claim C2, counterexample: on the token sequence `["ver", "todas"]` the
action detector returns the List action with one token consumed, not two —
the single-token membership of "ver" in the List vocabulary is tested before
the two-token rule, which is therefore unreachable. -/
theorem primera_palabra_ver_todas_contraejemplo :
    primeraPalabraAccion ["ver", "todas"] ["ver", "todas"] = (some Accion.listar, 1) ∧
    primeraPalabraAccion ["ver", "todas"] ["ver", "todas"] ≠ (some Accion.listar, 2) := by
  constructor
  · rfl
  · intro h
    rw [show primeraPalabraAccion ["ver", "todas"] ["ver", "todas"] = (some Accion.listar, 1) from rfl] at h
    simp at h

/-- Claim C2, amended: for every token sequence whose first lowered token is
"ver" and whose second lowered token is "todas" or "todos", the action
detector returns the List action with `tokens_consumed = 1`: the single-token
membership of "ver" in the List vocabulary wins because it is tested first,
and the dedicated two-token branch is dead code. -/
theorem primera_palabra_ver_todas_corregido
    (palabras low rest : List String) (w2 : String)
    (hpal : palabras ≠ [])
    (hlow : low = "ver" :: w2 :: rest) :
    primeraPalabraAccion palabras low = (some Accion.listar, 1) := by
  subst hlow
  rw [primeraPalabraAccion, if_neg hpal]
  rfl

/-- Witness for `primera_palabra_ver_todas_corregido` at a concrete input. -/
theorem primera_palabra_ver_todas_corregido_testigo :
    primeraPalabraAccion ["ver", "todos"] ["ver", "todos"] = (some Accion.listar, 1) :=
  primera_palabra_ver_todas_corregido ["ver", "todos"] ["ver", "todos"] [] "todos"
    (by simp) rfl

/-! ## Claim C6: value coercion and canonical key -/

/-- Claim C6: every binding added by the update field/value scan is stored
under the canonical key "descripcion" and its value is the boolean coercion
of some nonempty collected string; the coercion maps the true-words to
`true`, the false-words to `false`, and any other string to itself. -/
theorem coercion_valores_actualizar :
    (∀ toks params kv, kv ∈ scanCampos toks params →
      kv ∈ params ∨ (kv.1 = CAMPO_DESCRIPCION ∧ ∃ s, s ≠ "" ∧ kv.2 = coerceValor s)) ∧
    (∀ s, pyLower s ∈ (["verdadero", "true", "1", "si", "sí", "yes"] : List String) →
      coerceValor s = Valor.bool true) ∧
    (∀ s, pyLower s ∈ (["falso", "false", "0", "no"] : List String) →
      coerceValor s = Valor.bool false) ∧
    (∀ s, pyLower s ∉ (["verdadero", "true", "1", "si", "sí", "yes"] : List String) →
      pyLower s ∉ (["falso", "false", "0", "no"] : List String) →
      coerceValor s = Valor.str s) := by
  refine ⟨fun toks params kv h => mem_scanCamposF _ toks params kv h, ?_, ?_, ?_⟩
  · intro s h
    simp only [coerceValor, if_pos h]
  · intro s h
    have hne : pyLower s ∉ (["verdadero", "true", "1", "si", "sí", "yes"] : List String) := by
      simp only [List.mem_cons, List.mem_singleton, List.not_mem_nil] at h ⊢
      rcases h with h | h | h | h | h <;> simp [h]
    simp only [coerceValor, if_neg hne, if_pos h]
  · intro s h1 h2
    simp only [coerceValor, if_neg h1, if_neg h2]

/-- Witness for `coercion_valores_actualizar` at concrete inputs. -/
theorem coercion_valores_actualizar_testigo :
    coerceValor "Si" = Valor.bool true ∧ coerceValor "FALSO" = Valor.bool false ∧
    coerceValor "Conciertos" = Valor.str "Conciertos" :=
  ⟨coercion_valores_actualizar.2.1 "Si" (by decide),
   coercion_valores_actualizar.2.2.1 "FALSO" (by decide),
   coercion_valores_actualizar.2.2.2 "Conciertos" (by decide) (by decide)⟩

/-! ## Claim C9: the last nonempty field/value pair wins -/

/-- Claim C9: whenever the update scan recognizes more than one field/value
pair with a nonempty value, the resulting mapping stores under "descripcion"
the coercion of the value of the last such pair only — earlier values are
overwritten. -/
theorem actualizar_ultimo_par_gana (toks : List Tok) (params : Dict)
    (h2 : 2 ≤ (valoresRecogidos toks).length) :
    dictGet CAMPO_DESCRIPCION (scanCampos toks params) =
      Option.map coerceValor (ultimo? (valoresRecogidos toks)) := by
  have hne : valoresRecogidos toks ≠ [] := by
    intro h
    rw [h] at h2
    simp at h2
  rcases ultimo?_isSome _ hne with ⟨v, hv⟩
  rw [hv]
  exact (scanCamposF_ultimo _ toks params).2 v hv

/-- Witness for `actualizar_ultimo_par_gana` on a token sequence with two
nonempty field/value pairs: only the second survives. -/
theorem actualizar_ultimo_par_gana_testigo :
    dictGet CAMPO_DESCRIPCION
      (scanCampos [("descripcion", "descripcion"), ("x", "x"),
                   ("descripcion", "descripcion"), ("y", "y")] []) =
      some (Valor.str "y") := by
  rw [actualizar_ultimo_par_gana _ _ (by decide)]
  decide

/-! ## Claim C7: the executor never raises -/

/-- Claim C7: for every store behavior and every instruction, the executor
returns a message string: either the body ran without a store exception and
its message is returned unchanged, or the store raised with detail `e` and
the result is exactly "Error: " followed by `e`. -/
theorem ejecutar_nunca_lanza (svc : Almacen) (inst : Instruccion) :
    (∃ e, cuerpoCategorias svc inst = Except.error e ∧
      ejecutar svc inst = "Error: " ++ e) ∨
    (∃ m, cuerpoCategorias svc inst = Except.ok m ∧ ejecutar svc inst = m) := by
  obtain ⟨accion, entidad, params⟩ := inst
  cases entidad
  cases h : cuerpoCategorias svc ⟨accion, Entidad.categorias, params⟩ with
  | ok m =>
    right
    exact ⟨m, rfl, by simp [ejecutar, ejecutarCategorias, h]⟩
  | error e =>
    left
    exact ⟨e, rfl, by simp [ejecutar, ejecutarCategorias, h]⟩

/-! ## Shape of the extracted parameter mappings -/

theorem extraerParams_crear_forma (ent : Entidad) (palabras low : List String) (desde : Nat) :
    extraerParams Accion.crear ent palabras low desde = [] ∨
    ∃ s, s ≠ "" ∧
      extraerParams Accion.crear ent palabras low desde = [("descripcion", Valor.str s)] := by
  simp only [extraerParams]
  split
  · right; exact ⟨_, ‹_›, rfl⟩
  · left; rfl

theorem extraerParams_listar_forma (ent : Entidad) (palabras low : List String) (desde : Nat) :
    extraerParams Accion.listar ent palabras low desde = [] := rfl

theorem extraerParams_actualizar_forma (ent : Entidad) (palabras low : List String)
    (desde : Nat) :
    ∃ toks init,
      extraerParams Accion.actualizar ent palabras low desde = scanCampos toks init ∧
      (init = [] ∨ ∃ n, init = [("id", Valor.int n)]) := by
  simp only [extraerParams]
  split
  · exact ⟨[], [], rfl, Or.inl rfl⟩
  · split
    · rename_i t ts heq hdig
      exact ⟨ts, _, rfl, Or.inr ⟨pyToNat t.1, rfl⟩⟩
    · exact ⟨_, [], rfl, Or.inl rfl⟩

theorem extraerParams_eliminar_forma (ent : Entidad) (palabras low : List String)
    (desde : Nat) :
    extraerParams Accion.eliminar ent palabras low desde = [] ∨
    ∃ n, extraerParams Accion.eliminar ent palabras low desde = [("id", Valor.int n)] := by
  simp only [extraerParams]
  split
  · left; rfl
  · split
    · right; exact ⟨_, rfl⟩
    · left; rfl

/-! ## Claim C1: per-action completeness of every parsed instruction -/

/-- Claim C1: every instruction returned by `parsear` satisfies the
per-action completeness rule; inputs violating a rule never yield an
instruction because `parsear` validates before constructing. -/
theorem parsear_regla_completitud (texto : String) (inst : Instruccion)
    (h : parsear texto = some inst) : reglaCompletitud inst := by
  simp only [parsear] at h
  split at h
  · exact absurd h (by simp)
  · split at h
    · exact absurd h (by simp)
    · rename_i accion finAccion hacc
      split at h
      · exact absurd h (by simp)
      · rename_i entidad finEntidad hent
        split at h
        · exact absurd h (by simp)
        · split at h
          · exact absurd h (by simp)
          · split at h
            · exact absurd h (by simp)
            · rename_i hc1 hc2 hc3
              rw [Option.some.injEq] at h
              subst h
              cases accion with
              | crear =>
                rcases extraerParams_crear_forma entidad _ _ finEntidad with hf | ⟨s, hs, hf⟩
                · exact absurd ⟨rfl, by rw [hf]; rfl⟩ hc1
                · exact ⟨s, by simp only [reglaCompletitud, hf]; simp [dictGet], hs⟩
              | listar =>
                simp only [reglaCompletitud]
                exact extraerParams_listar_forma entidad _ _ finEntidad
              | actualizar =>
                rcases extraerParams_actualizar_forma entidad _ _ finEntidad
                  with ⟨toks, init, hf, hinit⟩
                have hid : dictGet "id" (extraerParams Accion.actualizar entidad
                    (pySplit (normalizarCompleto texto))
                    ((pySplit (normalizarCompleto texto)).map pyLower) finEntidad) =
                    dictGet "id" init := by
                  rw [hf]
                  exact dictGet_scanCampos "id" (by decide) toks init
                push_neg at hc2
                have hc2' := hc2 rfl
                rcases hinit with hi | ⟨n, hi⟩
                · exact absurd (by rw [hid, hi]; rfl) hc2'.1
                · refine ⟨⟨n, by rw [hid, hi]; simp [dictGet]⟩, ?_⟩
                  have hnodup : ((extraerParams Accion.actualizar entidad
                      (pySplit (normalizarCompleto texto))
                      ((pySplit (normalizarCompleto texto)).map pyLower)
                      finEntidad).map Prod.fst).Nodup := by
                    rw [hf]
                    refine nodup_keys_scanCamposF _ toks init ?_
                    rw [hi]; simp
                  have hlen : 2 ≤ (extraerParams Accion.actualizar entidad
                      (pySplit (normalizarCompleto texto))
                      ((pySplit (normalizarCompleto texto)).map pyLower)
                      finEntidad).length := by
                    omega
                  exact exists_key_ne _ hnodup hlen "id"
              | eliminar =>
                rcases extraerParams_eliminar_forma entidad _ _ finEntidad with hf | ⟨n, hf⟩
                · exact absurd ⟨rfl, by rw [hf]; rfl⟩ hc3
                · exact ⟨n, by simp only [reglaCompletitud, hf]; simp [dictGet]⟩

/-- Witness for `parsear_regla_completitud` at a concrete parse. -/
theorem parsear_regla_completitud_testigo :
    reglaCompletitud ⟨Accion.crear, Entidad.categorias, [("descripcion", Valor.str "X")]⟩ :=
  parsear_regla_completitud "nueva categoria X" _ (by decide)

/-! ## Claim C5: the update validation rule -/

/-- Claim C5: once the action actualizar and an entity have been detected, a
parse succeeds exactly when the extracted parameters contain "id" and more
than one key; in particular "editar categoria 1" (id but no field) is
rejected. -/
theorem actualizar_valido_sii :
    (∀ (texto : String) (palabras low : List String) (f : Nat) (ent : Entidad) (j : Nat)
      (params : Dict),
      normalizarCompleto texto ≠ "" →
      palabras = pySplit (normalizarCompleto texto) →
      low = palabras.map pyLower →
      primeraPalabraAccion palabras low = (some Accion.actualizar, f) →
      buscarEntidad palabras low f = (some ent, j) →
      params = extraerParams Accion.actualizar ent palabras low j →
      ((parsear texto).isSome ↔ (dictGet "id" params).isSome ∧ 1 < params.length)) ∧
    parsear "editar categoria 1" = none := by
  constructor
  · intro texto palabras low f ent j params hne hpal hlow hacc hent hparams
    subst hpal; subst hlow; subst hparams
    simp only [parsear, if_neg hne, hacc, hent]
    by_cases hid : dictGet "id" (extraerParams Accion.actualizar ent
        (pySplit (normalizarCompleto texto))
        ((pySplit (normalizarCompleto texto)).map pyLower) j) = none
    · simp [hid]
    · by_cases hlen : (extraerParams Accion.actualizar ent
          (pySplit (normalizarCompleto texto))
          ((pySplit (normalizarCompleto texto)).map pyLower) j).length ≤ 1
      · have hlen' : ¬ (1 : Nat) < (extraerParams Accion.actualizar ent
            (pySplit (normalizarCompleto texto))
            ((pySplit (normalizarCompleto texto)).map pyLower) j).length := by omega
        simp [hid, hlen, hlen']
      · have hlen' : (1 : Nat) < (extraerParams Accion.actualizar ent
            (pySplit (normalizarCompleto texto))
            ((pySplit (normalizarCompleto texto)).map pyLower) j).length := by omega
        simp [hid, hlen, hlen', Option.isSome_iff_ne_none]
  · decide

/-- Witness for `actualizar_valido_sii` at a concrete accepted update. -/
theorem actualizar_valido_sii_testigo :
    (parsear "editar categoria 7 descripcion hola").isSome := by
  refine (actualizar_valido_sii.1 "editar categoria 7 descripcion hola"
    _ _ 1 Entidad.categorias 2 _ (by decide) rfl rfl (by decide) (by decide) rfl).mpr ?_
  decide

/-! ## Claim C8: NotFound messages for update/delete -/

/-- Reduction of a successful `Except` bind (Python: no exception raised). -/
theorem exceptBind_ok {ε α β : Type} (a : α) (f : α → Except ε β) :
    (Except.ok a >>= f) = f a := rfl

/-- Claim C8: an update or delete whose store call affects zero rows yields
the explicit "No existe categoría con id …" message naming the id; a
positive row count yields the confirmation message (for update, enumerating
the applied field/value pairs); and the NotFound message is never of the
generic "Error: …" form. -/
theorem ejecutar_no_existe_mensajes :
    (∀ (svc : Almacen) (p : Dict) (idv : Valor) (n0 : Nat),
      dictGet "id" p = some idv →
      p.filter (fun kv => kv.1 ≠ "id") ≠ [] →
      pyInt idv = Except.ok n0 →
      svc.update n0 (p.filter (fun kv => kv.1 ≠ "id")) = Except.ok 0 →
      ejecutar svc ⟨Accion.actualizar, Entidad.categorias, p⟩ =
        "No existe categoría con id " ++ pyStr idv ++ ".") ∧
    (∀ (svc : Almacen) (p : Dict) (idv : Valor) (n0 n : Nat),
      dictGet "id" p = some idv →
      p.filter (fun kv => kv.1 ≠ "id") ≠ [] →
      pyInt idv = Except.ok n0 →
      svc.update n0 (p.filter (fun kv => kv.1 ≠ "id")) = Except.ok n → n ≠ 0 →
      ejecutar svc ⟨Accion.actualizar, Entidad.categorias, p⟩ =
        "Categoría " ++ pyStr idv ++ " actualizada: " ++
          joinSep ", " ((p.filter (fun kv => kv.1 ≠ "id")).map
            (fun kv => kv.1 ++ "=" ++ pyRepr kv.2)) ++ ".") ∧
    (∀ (svc : Almacen) (p : Dict) (idv : Valor) (n0 : Nat),
      dictGet "id" p = some idv →
      pyInt idv = Except.ok n0 →
      svc.delete n0 = Except.ok 0 →
      ejecutar svc ⟨Accion.eliminar, Entidad.categorias, p⟩ =
        "No existe categoría con id " ++ pyStr idv ++ ".") ∧
    (∀ (svc : Almacen) (p : Dict) (idv : Valor) (n0 n : Nat),
      dictGet "id" p = some idv →
      pyInt idv = Except.ok n0 →
      svc.delete n0 = Except.ok n → n ≠ 0 →
      ejecutar svc ⟨Accion.eliminar, Entidad.categorias, p⟩ =
        "Categoría " ++ pyStr idv ++ " eliminada.") ∧
    (∀ (idv : Valor) (e : String),
      "No existe categoría con id " ++ pyStr idv ++ "." ≠ "Error: " ++ e) := by
  refine ⟨?_, ?_, ?_, ?_, ?_⟩
  · intro svc p idv n0 h1 h2 h3 h4
    have h2' : (p.filter fun kv => !decide (kv.1 = "id")) ≠ [] := by simpa using h2
    have h4' : svc.update n0 (p.filter fun kv => !decide (kv.1 = "id")) = Except.ok 0 := by
      simpa using h4
    simp [ejecutar, ejecutarCategorias, cuerpoCategorias, h1, h2', h3, h4', exceptBind_ok]
  · intro svc p idv n0 n h1 h2 h3 h4 h5
    have h2' : (p.filter fun kv => !decide (kv.1 = "id")) ≠ [] := by simpa using h2
    have h4' : svc.update n0 (p.filter fun kv => !decide (kv.1 = "id")) = Except.ok n := by
      simpa using h4
    simp [ejecutar, ejecutarCategorias, cuerpoCategorias, h1, h2', h3, h4', h5, exceptBind_ok]
  · intro svc p idv n0 h1 h2 h3
    simp [ejecutar, ejecutarCategorias, cuerpoCategorias, h1, h2, h3, exceptBind_ok]
  · intro svc p idv n0 n h1 h2 h3 h4
    simp [ejecutar, ejecutarCategorias, cuerpoCategorias, h1, h2, h3, h4, exceptBind_ok]
  · intro idv e h
    have h2 : (("No existe categoría con id " ++ pyStr idv) ++ ".").data.head? =
        ("Error: " ++ e).data.head? := by rw [h]
    rw [String.data_append, String.data_append, String.data_append,
      List.head?_append, List.head?_append, List.head?_append] at h2
    have hN : ("No existe categoría con id " : String).data.head? = some 'N' := rfl
    have hE : ("Error: " : String).data.head? = some 'E' := rfl
    rw [hN, hE] at h2
    simp [Option.or] at h2

/-- Witness for `ejecutar_no_existe_mensajes`: deleting id 999 on a store
that reports zero affected rows produces the NotFound message. -/
theorem ejecutar_no_existe_mensajes_testigo :
    ejecutar
      ⟨fun _ => Except.ok 1, fun _ => Except.ok [], fun _ _ => Except.ok 0,
       fun _ => Except.ok 0⟩
      ⟨Accion.eliminar, Entidad.categorias, [("id", Valor.int 999)]⟩ =
      "No existe categoría con id 999." := by
  have h := ejecutar_no_existe_mensajes.2.2.1
    ⟨fun _ => Except.ok 1, fun _ => Except.ok [], fun _ _ => Except.ok 0,
     fun _ => Except.ok 0⟩
    [("id", Valor.int 999)] (Valor.int 999) 999 (by decide) rfl rfl
  rw [h]
  decide

/-! ## Lemmas on whitespace splitting and joining -/

theorem pySplitAux_palabras :
    ∀ (l acc : List Char), (∀ c ∈ acc, pyIsSpace c = false) →
      ∀ w ∈ pySplitAux l acc, w ≠ [] ∧ ∀ c ∈ w, pyIsSpace c = false := by
  intro l
  induction l with
  | nil =>
    intro acc hacc w hw
    rw [pySplitAux] at hw
    split at hw
    · simp at hw
    · simp only [List.mem_singleton] at hw
      subst hw
      refine ⟨by simpa using ‹¬ _ = _›, ?_⟩
      intro c hc
      exact hacc c (List.mem_reverse.mp hc)
  | cons c cs ih =>
    intro acc hacc w hw
    rw [pySplitAux] at hw
    split at hw
    · split at hw
      · exact ih [] (by simp) w hw
      · simp only [List.mem_cons] at hw
        rcases hw with hw | hw
        · subst hw
          refine ⟨by simpa using ‹¬ _ = _›, ?_⟩
          intro x hx
          exact hacc x (List.mem_reverse.mp hx)
        · exact ih [] (by simp) w hw
    · refine ih (c :: acc) ?_ w hw
      intro x hx
      rcases List.mem_cons.mp hx with hx | hx
      · subst hx; exact Bool.eq_false_iff.mpr ‹_›
      · exact hacc x hx

theorem pySplitAux_chars :
    ∀ (l acc : List Char) (w : List Char) (c : Char),
      w ∈ pySplitAux l acc → c ∈ w → c ∈ l ∨ c ∈ acc := by
  intro l
  induction l with
  | nil =>
    intro acc w c hw hc
    rw [pySplitAux] at hw
    split at hw
    · simp at hw
    · simp only [List.mem_singleton] at hw
      subst hw
      exact Or.inr (List.mem_reverse.mp hc)
  | cons x xs ih =>
    intro acc w c hw hc
    rw [pySplitAux] at hw
    split at hw
    · split at hw
      · rcases ih [] w c hw hc with h | h
        · exact Or.inl (List.mem_cons_of_mem _ h)
        · simp at h
      · simp only [List.mem_cons] at hw
        rcases hw with hw | hw
        · subst hw
          exact Or.inr (List.mem_reverse.mp hc)
        · rcases ih [] w c hw hc with h | h
          · exact Or.inl (List.mem_cons_of_mem _ h)
          · simp at h
    · rcases ih (x :: acc) w c hw hc with h | h
      · exact Or.inl (List.mem_cons_of_mem _ h)
      · rcases List.mem_cons.mp h with h | h
        · exact Or.inl (by simp [h])
        · exact Or.inr h

theorem pySplitAux_spaces :
    ∀ (s acc : List Char), (∀ c ∈ s, pyIsSpace c = true) →
      pySplitAux s acc = if acc = [] then [] else [acc.reverse] := by
  intro s
  induction s with
  | nil => intro acc _; rw [pySplitAux]
  | cons c cs ih =>
    intro acc hs
    have hcs : pySplitAux cs [] = [] := by
      rw [ih [] (fun x hx => hs x (by simp [hx]))]
      rfl
    rw [pySplitAux, if_pos (hs c (by simp))]
    by_cases hacc : acc = []
    · rw [if_pos hacc, if_pos hacc, hcs]
    · rw [if_neg hacc, if_neg hacc, hcs]

theorem pySplitAux_append_spaces :
    ∀ (l s acc : List Char), (∀ c ∈ s, pyIsSpace c = true) →
      pySplitAux (l ++ s) acc = pySplitAux l acc := by
  intro l
  induction l with
  | nil =>
    intro s acc hs
    rw [List.nil_append, pySplitAux_spaces s acc hs, pySplitAux]
  | cons c cs ih =>
    intro s acc hs
    rw [List.cons_append, pySplitAux, pySplitAux]
    split
    · split
      · exact ih s [] hs
      · rw [ih s [] hs]
    · exact ih s _ hs

theorem pySplitAux_word :
    ∀ (w l acc : List Char), (∀ c ∈ w, pyIsSpace c = false) →
      pySplitAux (w ++ l) acc = pySplitAux l (w.reverse ++ acc) := by
  intro w
  induction w with
  | nil => intro l acc _; simp
  | cons c cs ih =>
    intro l acc hw
    rw [List.cons_append, pySplitAux, if_neg (by simp [hw c (by simp)])]
    rw [ih l (c :: acc) (fun x hx => hw x (by simp [hx]))]
    simp

theorem pySplitAux_append_space :
    ∀ (a b acc : List Char),
      pySplitAux (a ++ ' ' :: b) acc = pySplitAux a acc ++ pySplitAux b [] := by
  intro a
  induction a with
  | nil =>
    intro b acc
    rw [List.nil_append]
    simp only [pySplitAux, if_pos (show pyIsSpace ' ' = true by decide)]
    by_cases hacc : acc = []
    · rw [if_pos hacc, if_pos hacc, List.nil_append]
    · rw [if_neg hacc, if_neg hacc, List.cons_append, List.nil_append]
  | cons c cs ih =>
    intro b acc
    rw [List.cons_append, pySplitAux,
      show pySplitAux (c :: cs) acc =
        if pyIsSpace c then
          (if acc = [] then pySplitAux cs [] else acc.reverse :: pySplitAux cs [])
        else pySplitAux cs (c :: acc) from by rw [pySplitAux]]
    by_cases hc : pyIsSpace c
    · rw [if_pos hc, if_pos hc]
      by_cases hacc : acc = []
      · rw [if_pos hacc, if_pos hacc]
        exact ih b []
      · rw [if_neg hacc, if_neg hacc, ih b [], List.cons_append]
    · rw [if_neg hc, if_neg hc]
      exact ih b _

/-- A nonempty whitespace-free word splits to itself. -/
theorem pySplitL_palabra (w : List Char) (hne : w ≠ [])
    (hw : ∀ c ∈ w, pyIsSpace c = false) : pySplitL w = [w] := by
  have h := pySplitAux_word w [] [] hw
  rw [List.append_nil] at h
  rw [pySplitL, h, pySplitAux, if_neg (by simpa using hne)]
  simp

/-- Splitting is a left inverse of joining on lists of nonempty
whitespace-free words. -/
theorem pySplitL_joinL :
    ∀ ws : List (List Char),
      (∀ w ∈ ws, w ≠ [] ∧ ∀ c ∈ w, pyIsSpace c = false) →
      pySplitL (joinL ws) = ws := by
  intro ws
  induction ws with
  | nil => intro _; rfl
  | cons w ws ih =>
    intro hws
    match ws, ih with
    | [], _ =>
      rw [joinL]
      exact pySplitL_palabra w (hws w (by simp)).1 (hws w (by simp)).2
    | w2 :: ws', ih =>
      rw [joinL, pySplitL, pySplitAux_append_space]
      rw [show pySplitAux w [] = pySplitL w from rfl,
        pySplitL_palabra w (hws w (by simp)).1 (hws w (by simp)).2]
      rw [show pySplitAux (joinL (w2 :: ws')) [] = pySplitL (joinL (w2 :: ws')) from rfl,
        ih (fun u hu => hws u (by simp [hu]))]
      rfl

theorem pySplitAux_eq_nil :
    ∀ (l acc : List Char), pySplitAux l acc = [] →
      acc = [] ∧ ∀ c ∈ l, pyIsSpace c = true := by
  intro l
  induction l with
  | nil =>
    intro acc h
    rw [pySplitAux] at h
    split at h
    · exact ⟨‹_›, by simp⟩
    · simp at h
  | cons c cs ih =>
    intro acc h
    rw [pySplitAux] at h
    split at h
    · split at h
      · rcases ih [] h with ⟨_, hcs⟩
        refine ⟨‹_›, ?_⟩
        intro x hx
        rcases List.mem_cons.mp hx with hx | hx
        · subst hx; simpa using ‹_›
        · exact hcs x hx
      · simp at h
    · rcases ih (c :: acc) h with ⟨hacc, _⟩
      simp at hacc

/-- A list with a non-whitespace character splits into at least one word. -/
theorem pySplitL_ne_nil (l : List Char) (c : Char) (hc : c ∈ l)
    (hns : pyIsSpace c = false) : pySplitL l ≠ [] := by
  intro h
  rcases pySplitAux_eq_nil l [] h with ⟨_, hall⟩
  rw [hall c hc] at hns
  exact absurd hns (by simp)

/-! ## Lemmas on joining -/

theorem joinL_cons_ne_nil (w : List Char) (ws : List (List Char)) (h : ws ≠ []) :
    joinL (w :: ws) = w ++ ' ' :: joinL ws := by
  match ws, h with
  | w2 :: ws', _ => rw [joinL]

theorem mem_joinL :
    ∀ (ws : List (List Char)) (c : Char), c ∈ joinL ws →
      c = ' ' ∨ ∃ w ∈ ws, c ∈ w := by
  intro ws
  induction ws with
  | nil => intro c hc; simp [joinL] at hc
  | cons w ws ih =>
    intro c hc
    match ws, ih with
    | [], _ =>
      rw [joinL] at hc
      exact Or.inr ⟨w, by simp, hc⟩
    | w2 :: ws', ih =>
      rw [joinL] at hc
      rcases List.mem_append.mp hc with hc | hc
      · exact Or.inr ⟨w, by simp, hc⟩
      · rcases List.mem_cons.mp hc with hc | hc
        · exact Or.inl hc
        · rcases ih c hc with hc | ⟨u, hu, hcu⟩
          · exact Or.inl hc
          · exact Or.inr ⟨u, by simp [hu], hcu⟩

theorem joinL_ne_nil (w : List Char) (ws : List (List Char)) (hw : w ≠ []) :
    joinL (w :: ws) ≠ [] := by
  match ws with
  | [] => rw [joinL]; exact hw
  | w2 :: ws' =>
    rw [joinL]
    simp [hw]

theorem joinL_head? (w : List Char) (ws : List (List Char)) (hw : w ≠ []) :
    (joinL (w :: ws)).head? = w.head? := by
  match ws with
  | [] => rw [joinL]
  | w2 :: ws' =>
    rw [joinL, List.head?_append]
    match w, hw with
    | c :: w', _ => rfl

theorem joinL_getLast? :
    ∀ (ws : List (List Char)) (w : List Char), (∀ u ∈ ws, u ≠ []) →
      ws.getLast? = some w → (joinL ws).getLast? = w.getLast? := by
  intro ws
  induction ws with
  | nil => intro w _ h; simp at h
  | cons u ws ih =>
    intro w hws hlast
    match ws, ih with
    | [], _ =>
      simp only [List.getLast?_singleton, Option.some.injEq] at hlast
      subst hlast
      rw [joinL]
    | w2 :: ws', ih =>
      rw [List.getLast?_cons_cons] at hlast
      rw [joinL, List.getLast?_append]
      have hj : joinL (w2 :: ws') ≠ [] :=
        joinL_ne_nil w2 ws' (hws w2 (by simp))
      have hlast2 := ih w (fun x hx => hws x (by simp [hx])) hlast
      match hcons : joinL (w2 :: ws') with
      | c :: cs =>
        rw [hcons] at hlast2
        rw [show (' ' :: c :: cs).getLast? = (c :: cs).getLast? from List.getLast?_cons_cons,
          hlast2]
        have : (c :: cs).getLast?.isSome := by simp [List.getLast?_isSome]
        rw [← hlast2]
        cases hg : (c :: cs).getLast? with
        | none => simp [hg] at this
        | some x => simp [Option.or]
      | [] => exact absurd hcons hj

/-! ## Lemmas on stripping -/

theorem head?_some_mem {α : Type} (l : List α) (c : α) (h : l.head? = some c) : c ∈ l := by
  match l with
  | [] => simp at h
  | a :: t =>
    simp only [List.head?_cons, Option.some.injEq] at h
    simp [← h]

theorem getLast?_some_mem {α : Type} (l : List α) (c : α) (h : l.getLast? = some c) :
    c ∈ l := by
  rw [← List.head?_reverse] at h
  exact List.mem_reverse.mp (head?_some_mem _ _ h)

theorem lstripL_eq_self (l : List Char)
    (h : ∀ c, l.head? = some c → pyIsSpace c = false) : lstripL l = l := by
  match l with
  | [] => rfl
  | c :: cs =>
    rw [lstripL, List.dropWhile_cons, if_neg (by simp [h c rfl])]

theorem rstripL_eq_self (l : List Char)
    (h : ∀ c, l.getLast? = some c → pyIsSpace c = false) : rstripL l = l := by
  rw [rstripL]
  match hrev : l.reverse with
  | [] => simpa using congrArg List.reverse hrev
  | c :: cs =>
    have hc : l.getLast? = some c := by
      rw [← List.head?_reverse, hrev]
      rfl
    rw [List.dropWhile_cons, if_neg (by simp [h c hc]), ← hrev, List.reverse_reverse]

theorem stripL_eq_self (l : List Char)
    (hh : ∀ c, l.head? = some c → pyIsSpace c = false)
    (hl : ∀ c, l.getLast? = some c → pyIsSpace c = false) : stripL l = l := by
  rw [stripL, lstripL_eq_self l hh, rstripL_eq_self l hl]

theorem rstripFinL_eq_self (l : List Char)
    (h : ∀ c, l.getLast? = some c → esFinFrase c = false) : rstripFinL l = l := by
  rw [rstripFinL]
  match hrev : l.reverse with
  | [] => simpa using congrArg List.reverse hrev
  | c :: cs =>
    have hc : l.getLast? = some c := by
      rw [← List.head?_reverse, hrev]
      rfl
    rw [List.dropWhile_cons, if_neg (by simp [h c hc]), ← hrev, List.reverse_reverse]

theorem mem_lstripL (c : Char) (l : List Char) (h : c ∈ lstripL l) : c ∈ l :=
  (List.dropWhile_sublist _).subset h

theorem mem_rstripL (c : Char) (l : List Char) (h : c ∈ rstripL l) : c ∈ l := by
  rw [rstripL] at h
  exact List.mem_reverse.mp ((List.dropWhile_sublist _).subset (List.mem_reverse.mp h))

theorem mem_stripL (c : Char) (l : List Char) (h : c ∈ stripL l) : c ∈ l :=
  mem_lstripL c l (mem_rstripL c (lstripL l) h)

theorem mem_rstripFinL (c : Char) (l : List Char) (h : c ∈ rstripFinL l) : c ∈ l := by
  rw [rstripFinL] at h
  exact List.mem_reverse.mp ((List.dropWhile_sublist _).subset (List.mem_reverse.mp h))

theorem rstripL_eq_nil_iff (x : List Char) :
    rstripL x = [] ↔ ∀ c ∈ x, pyIsSpace c = true := by
  rw [rstripL, List.reverse_eq_nil_iff, List.dropWhile_eq_nil_iff]
  constructor
  · intro h c hc
    exact h c (List.mem_reverse.mpr hc)
  · intro h c hc
    exact h c (List.mem_reverse.mp hc)

theorem stripL_eq_nil_iff (l : List Char) :
    stripL l = [] ↔ ∀ c ∈ l, pyIsSpace c = true := by
  rw [stripL, rstripL_eq_nil_iff]
  constructor
  · intro h c hc
    have hc' : c ∈ List.takeWhile pyIsSpace l ++ List.dropWhile pyIsSpace l := by
      rw [List.takeWhile_append_dropWhile]
      exact hc
    rcases List.mem_append.mp hc' with h1 | h1
    · exact List.mem_takeWhile_imp h1
    · exact h c h1
  · intro h c hc
    exact h c (mem_lstripL c l hc)

theorem pySplitL_eq_nil_iff (l : List Char) :
    pySplitL l = [] ↔ ∀ c ∈ l, pyIsSpace c = true := by
  constructor
  · intro h
    exact (pySplitAux_eq_nil l [] h).2
  · intro h
    rw [pySplitL, pySplitAux_spaces l [] h]
    rfl

/-! ## Splitting ignores stripping -/

theorem pySplitL_lstripL (l : List Char) : pySplitL (lstripL l) = pySplitL l := by
  induction l with
  | nil => rfl
  | cons c cs ih =>
    by_cases hc : pyIsSpace c
    · have h1 : lstripL (c :: cs) = lstripL cs := by
        rw [lstripL, List.dropWhile_cons, if_pos hc]
        rfl
      have h2 : pySplitL (c :: cs) = pySplitL cs := by
        rw [pySplitL, pySplitAux, if_pos hc, if_pos rfl]
        rfl
      rw [h1, ih, h2]
    · rw [lstripL, List.dropWhile_cons, if_neg hc]

theorem rstripL_append_spaces (l : List Char) :
    ∃ s, (∀ c ∈ s, pyIsSpace c = true) ∧ l = rstripL l ++ s := by
  refine ⟨(l.reverse.takeWhile pyIsSpace).reverse, ?_, ?_⟩
  · intro c hc
    exact List.mem_takeWhile_imp (List.mem_reverse.mp hc)
  · have h := List.takeWhile_append_dropWhile pyIsSpace l.reverse
    calc l = l.reverse.reverse := (List.reverse_reverse l).symm
    _ = (List.takeWhile pyIsSpace l.reverse ++ List.dropWhile pyIsSpace l.reverse).reverse := by
        rw [h]
    _ = rstripL l ++ (List.takeWhile pyIsSpace l.reverse).reverse := by
        rw [List.reverse_append]
        rfl

theorem pySplitL_rstripL (l : List Char) : pySplitL (rstripL l) = pySplitL l := by
  rcases rstripL_append_spaces l with ⟨s, hs, hl⟩
  conv_rhs => rw [hl]
  rw [pySplitL, pySplitL, pySplitAux_append_spaces _ s [] hs]

theorem pySplitL_stripL (l : List Char) : pySplitL (stripL l) = pySplitL l := by
  rw [stripL, pySplitL_rstripL, pySplitL_lstripL]

/-! ## Stripping fixes joined word lists -/

theorem stripL_joinL (ws : List (List Char))
    (hws : ∀ w ∈ ws, w ≠ [] ∧ ∀ c ∈ w, pyIsSpace c = false) :
    stripL (joinL ws) = joinL ws := by
  match ws with
  | [] => rfl
  | w :: ws' =>
    have hw := hws w (by simp)
    apply stripL_eq_self
    · intro c hc
      rw [joinL_head? w ws' hw.1] at hc
      exact hw.2 c (head?_some_mem _ _ hc)
    · intro c hc
      cases hu : (w :: ws').getLast? with
      | none => simp [List.getLast?_eq_none_iff] at hu
      | some u =>
        have hju := joinL_getLast? (w :: ws') u (fun x hx => (hws x hx).1) hu
        rw [hju] at hc
        exact (hws u (getLast?_some_mem _ _ hu)).2 c (getLast?_some_mem _ _ hc)

/-! ## Normalizer characterization -/

theorem normalizarL_caracterizacion (l : List Char) :
    normalizarL l =
      if pySplitL l = [] then []
      else stripL (rstripFinL (joinL (pySplitL l))) := by
  rw [normalizarL]
  by_cases hs : stripL l = []
  · rw [if_pos hs, if_pos ((pySplitL_eq_nil_iff l).mpr ((stripL_eq_nil_iff l).mp hs))]
  · have hnil : pySplitL l ≠ [] := by
      intro h
      exact hs ((stripL_eq_nil_iff l).mpr ((pySplitL_eq_nil_iff l).mp h))
    rw [if_neg hs, if_neg hnil, pySplitL_stripL l,
      stripL_joinL (pySplitL l) (pySplitAux_palabras l [] (by simp))]

theorem normalizarL_fijo (l : List Char)
    (hne : pySplitL l ≠ [])
    (hl : joinL (pySplitL l) = l)
    (hfin : ∀ c, l.getLast? = some c → esFinFrase c = false) :
    normalizarL l = l := by
  rw [normalizarL_caracterizacion, if_neg hne, hl, rstripFinL_eq_self l hfin, ← hl]
  exact stripL_joinL (pySplitL l) (pySplitAux_palabras l [] (by simp))

/-! ## Diacritic-stripping stability -/

theorem quitarTildesL_append (a b : List Char) :
    quitarTildesL (a ++ b) = quitarTildesL a ++ quitarTildesL b := by
  simp [quitarTildesL, List.filter_append]

theorem quitarTildesL_cons (c : Char) (l : List Char) :
    quitarTildesL (c :: l) = (nfdChar c).filter (fun x => !esMn x) ++ quitarTildesL l := by
  simp [quitarTildesL, List.filter_append]

theorem quitarTildesL_estable (l : List Char) (h : ∀ c ∈ l, charEstable c = true) :
    quitarTildesL l = l := by
  induction l with
  | nil => rfl
  | cons c cs ih =>
    have hc := h c (by simp)
    rw [charEstable, Bool.and_eq_true] at hc
    have h1 : nfdChar c = [c] := by simpa using hc.1
    have h2 : esMn c = false := by simpa using hc.2
    rw [quitarTildesL_cons, h1, ih (fun x hx => h x (by simp [hx]))]
    simp [h2]

theorem mem_joinL_pySplitL (l : List Char) (c : Char)
    (hc : c ∈ joinL (pySplitL l)) : c = ' ' ∨ c ∈ l := by
  rcases mem_joinL _ c hc with h | ⟨w, hw, hcw⟩
  · exact Or.inl h
  · rcases pySplitAux_chars l [] w c hw hcw with h | h
    · exact Or.inr h
    · simp at h

/-- Core of the conditional idempotence: on terminator-free, diacritic-stable
input, the full normalization produces exactly the rejoined word list. -/
theorem normalizarCompleto_palabras (l : List Char)
    (hne : pySplitL l ≠ [])
    (hfin : ∀ c ∈ l, esFinFrase c = false)
    (hest : ∀ c ∈ l, charEstable c = true) :
    quitarTildesL (normalizarL l) = joinL (pySplitL l) := by
  have hws : ∀ w ∈ pySplitL l, w ≠ [] ∧ ∀ c ∈ w, pyIsSpace c = false :=
    pySplitAux_palabras l [] (by simp)
  rw [normalizarL_caracterizacion, if_neg hne]
  have hrfin : rstripFinL (joinL (pySplitL l)) = joinL (pySplitL l) := by
    apply rstripFinL_eq_self
    intro c hc
    rcases mem_joinL_pySplitL l c (getLast?_some_mem _ _ hc) with h | h
    · subst h; rfl
    · exact hfin c h
  rw [hrfin, stripL_joinL (pySplitL l) hws]
  apply quitarTildesL_estable
  intro c hc
  rcases mem_joinL_pySplitL l c hc with h | h
  · subst h; rfl
  · exact hest c h

/-! ## Claim C3: idempotence of normalization -/

/-- Claim C3, counterexample: normalization is not idempotent.  The input
". ." normalizes to "." (stripping the trailing terminator exposes a new
trailing terminator after the whitespace is removed), and a second pass
normalizes that to "". -/
theorem normalizar_completo_no_idempotente :
    normalizarCompleto ". ." = "." ∧
    normalizarCompleto (normalizarCompleto ". .") = "" ∧
    normalizarCompleto (normalizarCompleto ". .") ≠ normalizarCompleto ". ." := by
  refine ⟨by decide, by decide, by decide⟩

/-- Claim C3, amended: normalization (whitespace collapse, trim, stripping
of trailing sentence terminators, diacritic removal) is idempotent on every
input containing no sentence-terminator character and no character altered
by diacritic stripping; it is not idempotent in general (see the
counterexample). -/
theorem normalizar_completo_idempotente_condicional (x : String)
    (hfin : ∀ c ∈ x.data, esFinFrase c = false)
    (hest : ∀ c ∈ x.data, charEstable c = true) :
    normalizarCompleto (normalizarCompleto x) = normalizarCompleto x := by
  by_cases hne : pySplitL x.data = []
  · have h0 : normalizarCompleto x = "" := by
      rw [normalizarCompleto, normalizar]
      rw [show normalizarL x.data = [] from by rw [normalizarL_caracterizacion, if_pos hne]]
      rfl
    rw [h0]
    decide
  · have h1 : normalizarCompleto x = String.mk (joinL (pySplitL x.data)) := by
      rw [normalizarCompleto, quitarTildes, normalizar]
      exact congrArg String.mk (normalizarCompleto_palabras x.data hne hfin hest)
    have hws : ∀ w ∈ pySplitL x.data, w ≠ [] ∧ ∀ c ∈ w, pyIsSpace c = false :=
      pySplitAux_palabras x.data [] (by simp)
    have hsplit2 : pySplitL (joinL (pySplitL x.data)) = pySplitL x.data :=
      pySplitL_joinL _ hws
    have h2 : normalizarCompleto (String.mk (joinL (pySplitL x.data))) =
        String.mk (joinL (pySplitL x.data)) := by
      rw [normalizarCompleto, quitarTildes, normalizar]
      refine congrArg String.mk ?_
      have hmain := normalizarCompleto_palabras (joinL (pySplitL x.data))
        (by rw [hsplit2]; exact hne)
        (fun c hc => by
          rcases mem_joinL_pySplitL x.data c hc with h | h
          · subst h; rfl
          · exact hfin c h)
        (fun c hc => by
          rcases mem_joinL_pySplitL x.data c hc with h | h
          · subst h; rfl
          · exact hest c h)
      rw [hsplit2] at hmain
      exact hmain
    rw [h1, h2]

/-- Witness for `normalizar_completo_idempotente_condicional` on a concrete
terminator-free diacritic-free input. -/
theorem normalizar_completo_idempotente_condicional_testigo :
    normalizarCompleto (normalizarCompleto "hola  mundo") = normalizarCompleto "hola  mundo" :=
  normalizar_completo_idempotente_condicional "hola  mundo" (by decide) (by decide)

/-! ## Claim C4: the Create round-trip -/

theorem primeraPalabraAccion_nueva (p low : List String) :
    primeraPalabraAccion ("nueva" :: p) ("nueva" :: low) = (some Accion.crear, 1) := by
  rw [primeraPalabraAccion, if_neg (by simp)]
  rfl

theorem buscarEntidad_categoria (p low2 : List String) (w : String) :
    buscarEntidad p (w :: "categoria" :: low2) 1 = (some Entidad.categorias, 2) := by
  rw [buscarEntidad]
  rfl

theorem map_data_map_mk (lls : List (List Char)) :
    (lls.map String.mk).map String.data = lls := by
  induction lls with
  | nil => rfl
  | cons l ls ih => simp [ih]

theorem mk_ne_empty (w : List Char) (hw : w ≠ []) : String.mk w ≠ "" := by
  intro h
  exact hw (congrArg String.data h)

/-- Claim C4, counterexample: the round-trip fails for the description
"X.": normalization strips the trailing period, so the parsed description is
"X", not the trimmed input "X.". -/
theorem parsear_crear_redondeo_contraejemplo :
    ("X." : String) ≠ "" ∧
    (∀ w ∈ pySplit "X.", pyLower w ∉ CAMPOS_ACTUALIZABLES) ∧
    parsear ("nueva categoria " ++ "X.") =
      some ⟨Accion.crear, Entidad.categorias, [("descripcion", Valor.str "X")]⟩ ∧
    Valor.str "X" ≠ Valor.str (pyStrip "X.") := by
  refine ⟨by decide, by decide, by decide, by decide⟩

/-- Claim C4, amended: for every non-empty description `d` that contains no
recognized field keyword and is invariant under normalization — collapsed
single-space whitespace without leading or trailing whitespace, no trailing
sentence terminator, and no characters altered by diacritic stripping —
parsing "nueva categoria " followed by `d` yields a Create instruction whose
description is exactly `d`. -/
theorem parsear_crear_redondeo (d : String)
    (hne : pySplitL d.data ≠ [])
    (hform : joinL (pySplitL d.data) = d.data)
    (hfin : ∀ c, d.data.getLast? = some c → esFinFrase c = false)
    (hest : ∀ c ∈ d.data, charEstable c = true)
    (hcampo : ∀ w ∈ pySplit d, pyLower w ∉ CAMPOS_ACTUALIZABLES) :
    parsear ("nueva categoria " ++ d) =
      some ⟨Accion.crear, Entidad.categorias, [("descripcion", Valor.str d)]⟩ := by
  have hdd : d.data ≠ [] := by
    intro h
    apply hne
    rw [h]
    rfl
  have hdne : d ≠ "" := by
    intro h
    exact hdd (congrArg String.data h)
  have hws : ∀ w ∈ pySplitL d.data, w ≠ [] ∧ ∀ c ∈ w, pyIsSpace c = false :=
    pySplitAux_palabras d.data [] (by simp)
  have hdata : ("nueva categoria " ++ d).data =
      "nueva".data ++ ' ' :: ("categoria".data ++ ' ' :: d.data) := by
    rw [String.data_append]
    rfl
  have hsplit : pySplitL ("nueva categoria " ++ d).data =
      "nueva".data :: "categoria".data :: pySplitL d.data := by
    rw [hdata, pySplitL, pySplitAux_append_space, pySplitAux_append_space]
    rfl
  have hlast : ∀ c, ("nueva categoria " ++ d).data.getLast? = some c →
      esFinFrase c = false := by
    intro c hc
    rw [String.data_append, List.getLast?_append] at hc
    cases hg : d.data.getLast? with
    | none =>
      rw [List.getLast?_eq_none_iff] at hg
      exact absurd hg hdd
    | some c0 =>
      rw [hg] at hc
      simp only [Option.or] at hc
      rw [Option.some.injEq] at hc
      subst hc
      exact hfin c0 hg
  have hjoin : joinL (pySplitL ("nueva categoria " ++ d).data) =
      ("nueva categoria " ++ d).data := by
    rw [hsplit, joinL_cons_ne_nil _ _ (by simp), joinL_cons_ne_nil _ _ hne, hform, hdata]
  have hnorm : normalizarL ("nueva categoria " ++ d).data =
      ("nueva categoria " ++ d).data :=
    normalizarL_fijo _ (by rw [hsplit]; simp) hjoin hlast
  have hstable2 : ∀ c ∈ ("nueva categoria " ++ d).data, charEstable c = true := by
    intro c hc
    rw [String.data_append] at hc
    rcases List.mem_append.mp hc with h | h
    · have hlit : ∀ c ∈ ("nueva categoria " : String).data, charEstable c = true := by decide
      exact hlit c h
    · exact hest c h
  have hquitar : quitarTildesL ("nueva categoria " ++ d).data =
      ("nueva categoria " ++ d).data := quitarTildesL_estable _ hstable2
  have ht : normalizarCompleto ("nueva categoria " ++ d) = "nueva categoria " ++ d := by
    calc normalizarCompleto ("nueva categoria " ++ d)
        = String.mk (quitarTildesL (normalizarL ("nueva categoria " ++ d).data)) := rfl
      _ = String.mk (("nueva categoria " ++ d).data) := by rw [hnorm, hquitar]
      _ = "nueva categoria " ++ d := rfl
  have hne2 : ("nueva categoria " ++ d) ≠ "" := by
    intro h
    have h2 := congrArg String.data h
    rw [hdata] at h2
    simp at h2
  have hpal : pySplit ("nueva categoria " ++ d) =
      "nueva" :: "categoria" :: (pySplitL d.data).map String.mk := by
    rw [pySplit, hsplit]
    rfl
  have hstrip : stripL d.data = d.data := by
    rw [← hform]
    exact stripL_joinL _ hws
  have hparams : extraerParams Accion.crear Entidad.categorias
      ("nueva" :: "categoria" :: (pySplitL d.data).map String.mk)
      ("nueva" :: "categoria" :: ((pySplitL d.data).map String.mk).map pyLower) 2 =
      [("descripcion", Valor.str d)] := by
    rw [extraerParams]
    simp only [List.drop_succ_cons, List.drop_zero]
    rw [List.filter_eq_self.mpr (by
      intro a ha
      rcases List.mem_map.mp ha with ⟨w, hw, hmk⟩
      simpa [← hmk] using mk_ne_empty w (hws w hw).1)]
    rw [show joinPalabras ((pySplitL d.data).map String.mk) = String.mk d.data from by
      rw [joinPalabras, map_data_map_mk, hform]]
    rw [show pyStrip (String.mk d.data) = d from by
      rw [pyStrip]
      calc String.mk (stripL (String.mk d.data).data) = String.mk (stripL d.data) := rfl
        _ = String.mk d.data := by rw [hstrip]
        _ = d := rfl]
    rw [if_pos hdne]
  rw [parsear]
  simp only [ht, if_neg hne2]
  rw [show (pySplit ("nueva categoria " ++ d)).map pyLower =
      "nueva" :: "categoria" ::
        ((pySplitL d.data).map String.mk).map pyLower from by
    rw [hpal]
    rfl]
  conv_lhs => rw [hpal]
  rw [primeraPalabraAccion_nueva]
  dsimp only
  rw [buscarEntidad_categoria]
  dsimp only
  rw [hparams]
  simp [dictGet]

/-- Witness for `parsear_crear_redondeo` at a concrete description. -/
theorem parsear_crear_redondeo_testigo :
    parsear ("nueva categoria " ++ "Conciertos") =
      some ⟨Accion.crear, Entidad.categorias, [("descripcion", Valor.str "Conciertos")]⟩ :=
  parsear_crear_redondeo "Conciertos" (by decide) (by decide) (by decide) (by decide)
    (by decide)

/-! ## Claim C10: case-insensitive matching, case-preserving values -/

/-- Claim C10: action and entity matching read only the lowercased token
copies (the original-case token list influences nothing but emptiness), while
Create descriptions and Update field values keep the original character case
of the input — only diacritics are removed and whitespace collapsed. -/
theorem matching_minusculas_preserva_caso :
    (∀ (p₁ p₂ low : List String), p₁ ≠ [] → p₂ ≠ [] →
      primeraPalabraAccion p₁ low = primeraPalabraAccion p₂ low) ∧
    (∀ (p₁ p₂ low : List String) (desde : Nat),
      buscarEntidad p₁ low desde = buscarEntidad p₂ low desde) ∧
    parsear "NUEVA Categoria HOLA Mundo" =
      some ⟨Accion.crear, Entidad.categorias, [("descripcion", Valor.str "HOLA Mundo")]⟩ ∧
    parsear "EDITAR las Categorias 1 DESCRIPCION MiXto" =
      some ⟨Accion.actualizar, Entidad.categorias,
        [("id", Valor.int 1), ("descripcion", Valor.str "MiXto")]⟩ ∧
    parsear "nueva categoria Canción" =
      some ⟨Accion.crear, Entidad.categorias, [("descripcion", Valor.str "Cancion")]⟩ := by
  refine ⟨?_, ?_, by decide, by decide, by decide⟩
  · intro p₁ p₂ low h1 h2
    rw [primeraPalabraAccion, primeraPalabraAccion, if_neg h1, if_neg h2]
  · intro p₁ p₂ low desde
    rfl

/-- Witness for `matching_minusculas_preserva_caso`: two token lists that
differ only in original case are detected identically. -/
theorem matching_minusculas_preserva_caso_testigo :
    primeraPalabraAccion ["Nueva", "X"] ["nueva", "x"] =
      primeraPalabraAccion ["NUEVA", "Y"] ["nueva", "x"] :=
  matching_minusculas_preserva_caso.1 ["Nueva", "X"] ["NUEVA", "Y"] ["nueva", "x"]
    (by decide) (by decide)

end AsistoVoice
